import Mathlib

/-!
Shallow embedding of the reflection stepping engine of `src/reflectoray.py`
(ReflectoRay).  Turtle state is modelled as a record of position and heading
(degrees, mathematical convention: 0 = +x, counterclockwise positive);
`turtle.forward(d)` adds `d * (cos θ, sin θ)` to the position.  Python floats
are modelled as real numbers (exact arithmetic); `math.atan2 y x` is
`Complex.arg ⟨x, y⟩`, which has the same branch structure and range (-π, π].
Pen up/down calls are rendering-only and have no effect on simulation state,
so they are not modelled.
-/

open Real

/-- A ray: the turtle's position and heading in degrees
(`ray.position()`, `ray.heading()`). -/
@[ext] structure Ray where
  pos : ℝ × ℝ
  heading : ℝ

/-- A mirror, as stored in the config: `(start, end)` endpoints. -/
abbrev Mirror := (ℝ × ℝ) × (ℝ × ℝ)

/-- `turtle.forward(d)`: advance `d` units along the current heading
(degrees converted to radians for the trigonometric functions). -/
noncomputable def fwd (r : Ray) (d : ℝ) : Ray :=
  ⟨(r.pos.1 + d * Real.cos (r.heading * Real.pi / 180),
    r.pos.2 + d * Real.sin (r.heading * Real.pi / 180)), r.heading⟩

/-- Numerator of `distance` (reflectoray.py lines 137-138):
`abs((y2 - y1) * x - (x2 - x1) * y + x2 * y1 - y2 * x1)`. -/
noncomputable def distNum (point line_start line_end : ℝ × ℝ) : ℝ :=
  |(line_end.2 - line_start.2) * point.1 - (line_end.1 - line_start.1) * point.2 +
    line_end.1 * line_start.2 - line_end.2 * line_start.1|

/-- Denominator of `distance`: `math.sqrt((y2 - y1) ** 2 + (x2 - x1) ** 2)`. -/
noncomputable def distDen (line_start line_end : ℝ × ℝ) : ℝ :=
  Real.sqrt ((line_end.2 - line_start.2) ^ 2 + (line_end.1 - line_start.1) ^ 2)

/-- `distance(point, line_start, line_end)` (reflectoray.py lines 122-139):
point-to-infinite-line distance formula. -/
noncomputable def distance (point line_start line_end : ℝ × ℝ) : ℝ :=
  distNum point line_start line_end / distDen line_start line_end

/-- `distance` with Python's division semantics made explicit: a zero divisor
raises `ZeroDivisionError` (modelled as `none`); otherwise the quotient. -/
noncomputable def distanceE (point line_start line_end : ℝ × ℝ) : Option ℝ :=
  if distDen line_start line_end = 0 then none
  else some (distance point line_start line_end)

/-- `reflect_ray(incident_angle, line_start, line_end)` (lines 142-159):
`mirror_angle = degrees(atan2(y2 - y1, x2 - x1))`;
returns `2 * mirror_angle - incident_angle`. -/
noncomputable def reflect_ray (incident_angle : ℝ) (line_start line_end : ℝ × ℝ) : ℝ :=
  2 * (Complex.arg ⟨line_end.1 - line_start.1, line_end.2 - line_start.2⟩ * 180 / Real.pi) -
    incident_angle

/-- The `while distance <= extension_length` loop of `extend_ray`
(lines 173-178): each pass draws two 10-unit forward moves along the current
heading and adds 20 to the loop counter. -/
noncomputable def extendLoop (r : Ray) (d : ℕ) : Ray × ℕ :=
  if h : d ≤ 1000 then extendLoop (fwd (fwd r 10) 10) (d + 20) else (r, d)
termination_by 1001 - d
decreasing_by omega

/-- `extend_ray(ray)` (lines 162-181): save the heading, turn to
`angle - 180`, run the dashed-stepping loop, restore the heading, then
`forward(distance)` with the final loop counter. -/
noncomputable def extend_ray (r : Ray) : Ray :=
  let angle := r.heading
  let p := extendLoop ⟨r.pos, angle - 180⟩ 0
  fwd ⟨p.1.pos, angle⟩ (p.2 : ℝ)

/-- The collision test of `simulate_rays` (lines 205-208):
`intersection <= margin and in_boundary`, where
`in_boundary = (sy < ray.ycor() < ey) or (ex < ray.xcor() < sx)`. -/
def is_colliding (margin : ℝ) (r : Ray) (m : Mirror) : Prop :=
  distance r.pos m.1 m.2 ≤ margin ∧
    ((m.1.2 < r.pos.2 ∧ r.pos.2 < m.2.2) ∨ (m.2.1 < r.pos.1 ∧ r.pos.1 < m.1.1))

open Classical in
/-- The body of the inner `for mirror in mirrors` loop of `simulate_rays`
(lines 200-212): on collision, set the heading to the reflection angle and
run `extend_ray`; in every case `ray.forward(1)` ends the loop body. -/
noncomputable def stepRayMirror (margin : ℝ) (r : Ray) (m : Mirror) : Ray :=
  let r' := if is_colliding margin r m then extend_ray ⟨r.pos, reflect_ray r.heading m.1 m.2⟩
            else r
  fwd r' 1

/-- One tick of one ray: the inner mirror loop folded over the mirror list
in configuration order. -/
noncomputable def stepRay (margin : ℝ) (mirrors : List Mirror) (r : Ray) : Ray :=
  mirrors.foldl (stepRayMirror margin) r

/-- `simulate_rays(rays, mirrors)` (lines 191-212): `margin = 2**0.5`; each
ray is stepped independently through the full mirror list. -/
noncomputable def simulate_rays (rays : List Ray) (mirrors : List Mirror) : List Ray :=
  rays.map (stepRay (Real.sqrt 2) mirrors)

/-- `n` ticks of a single ray at a given margin. -/
noncomputable def runRay (margin : ℝ) (mirrors : List Mirror) : ℕ → Ray → Ray
  | 0, r => r
  | n + 1, r => stepRay margin mirrors (runRay margin mirrors n r)

/-- The tick loop of `run_simulation` (lines 215-225), stripped of rendering:
`iterations` applications of `simulate_rays`. -/
noncomputable def run_simulation (mirrors : List Mirror) (rays : List Ray) : ℕ → List Ray
  | 0 => rays
  | n + 1 => simulate_rays (run_simulation mirrors rays n) mirrors

/-- `create_ray(angle, start, color)` (lines 80-99), geometry only: the ray
starts at `start` with heading `angle` (a fresh turtle heads 0 and turns
`left(angle)`). -/
def create_ray (angle : ℝ) (start : ℝ × ℝ) : Ray :=
  ⟨start, angle⟩

/-- `create_rays_from_sources(angles, sources)` (lines 102-119): one ray per
`(angle, source)` pair, angles outermost. -/
def create_rays_from_sources (angles : List ℝ) (sources : List (ℝ × ℝ)) : List Ray :=
  angles.flatMap fun angle => sources.map fun start => create_ray angle start

/-- `setup_simulation(mirrors, sources, angles)` (lines 184-188), geometry
only: draws the mirrors (no validation of any kind is performed on them) and
creates the rays. -/
def setup_simulation (_mirrors : List Mirror) (sources : List (ℝ × ℝ))
    (angles : List ℝ) : List Ray :=
  create_rays_from_sources angles sources

/-! ### Basic facts about `fwd` and `extend_ray` -/

lemma fwd_zero (r : Ray) : fwd r 0 = r := by
  unfold fwd
  ext <;> simp

lemma fwd_heading (r : Ray) (d : ℝ) : (fwd r d).heading = r.heading := rfl

lemma fwd_fwd (r : Ray) (a b : ℝ) : fwd (fwd r a) b = fwd r (a + b) := by
  unfold fwd
  ext <;> simp <;> ring

/-- Closed form for the `extend_ray` loop: starting the counter at
`1020 - 20 * n` (for `n ≤ 51`), the loop advances the ray `20 * n` units
along its heading and the counter ends at exactly `1020`. -/
lemma extendLoop_closed :
    ∀ n : ℕ, n ≤ 51 → ∀ r : Ray,
      extendLoop r (1020 - 20 * n) = (fwd r (20 * (n : ℝ)), 1020) := by
  intro n
  induction n with
  | zero =>
    intro _ r
    rw [extendLoop]
    rw [dif_neg (by omega)]
    simp [fwd_zero]
  | succ k ih =>
    intro hk r
    rw [extendLoop]
    rw [dif_pos (by omega)]
    have harg : 1020 - 20 * (k + 1) + 20 = 1020 - 20 * k := by omega
    rw [harg, fwd_fwd, ih (by omega)]
    have : (10 : ℝ) + 10 + 20 * (k : ℝ) = 20 * ((k : ℕ) + 1 : ℕ) := by
      push_cast; ring
    rw [fwd_fwd, this]

/-- `extend_ray` is the identity on the simulation state: it walks the ray
1020 units backward along its heading and then 1020 units forward along the
same heading, restoring both position and heading exactly. -/
lemma extend_ray_eq_id (r : Ray) : extend_ray r = r := by
  unfold extend_ray
  have h0 : (1020 : ℕ) - 20 * 51 = 0 := by omega
  have hc := extendLoop_closed 51 (le_refl 51) ⟨r.pos, r.heading - 180⟩
  rw [h0] at hc
  simp only [hc]
  have hcos : Real.cos ((r.heading - 180) * Real.pi / 180) =
      -Real.cos (r.heading * Real.pi / 180) := by
    have : (r.heading - 180) * Real.pi / 180 = r.heading * Real.pi / 180 - Real.pi := by
      ring
    rw [this, Real.cos_sub_pi]
  have hsin : Real.sin ((r.heading - 180) * Real.pi / 180) =
      -Real.sin (r.heading * Real.pi / 180) := by
    have : (r.heading - 180) * Real.pi / 180 = r.heading * Real.pi / 180 - Real.pi := by
      ring
    rw [this, Real.sin_sub_pi]
  unfold fwd
  ext <;> simp [hcos, hsin] <;> norm_num

/-! ### The default-scenario constants -/

/-- The single vertical mirror `((100, -100), (100, 100))` of the scenario
claims. -/
def vmirror : Mirror := (((100 : ℝ), (-100 : ℝ)), ((100 : ℝ), (100 : ℝ)))

/-- A ray at the origin heading 0 degrees (pointing along +x). -/
def ray0 : Ray := ⟨((0 : ℝ), (0 : ℝ)), 0⟩

lemma arg_vertical : Complex.arg ⟨0, 200⟩ = Real.pi / 2 := by
  have h : (⟨0, 200⟩ : ℂ) = (200 : ℝ) * Complex.I := by
    apply Complex.ext <;> simp
  rw [h, Complex.arg_real_mul Complex.I (by norm_num), Complex.arg_I]

/-- Reflecting any incident heading off the vertical mirror gives
`2 * 90 - incident`. -/
lemma reflect_vmirror (inc : ℝ) :
    reflect_ray inc vmirror.1 vmirror.2 = 2 * 90 - inc := by
  unfold reflect_ray vmirror
  have h : (⟨(100 : ℝ) - 100, (100 : ℝ) - -100⟩ : ℂ) = ⟨0, 200⟩ := by
    apply Complex.ext <;> norm_num
  rw [h, arg_vertical]
  have hpi := Real.pi_ne_zero
  field_simp
  ring

/-! ### Claims C2 and C3: the escape advance -/

/-- C3: `extend_ray` leaves the ray's position and heading exactly unchanged
(in exact arithmetic): its loop moves the ray 1020 units along the reversed
heading, then the heading is restored and the ray moves 1020 units forward
along it, so the net effect on the simulation state is the identity. -/
theorem C3_extend_ray_identity (r : Ray) :
    extend_ray r = r ∧
      extendLoop ⟨r.pos, r.heading - 180⟩ 0 =
        (fwd ⟨r.pos, r.heading - 180⟩ 1020, 1020) := by
  constructor
  · exact extend_ray_eq_id r
  · have hc := extendLoop_closed 51 (le_refl 51) ⟨r.pos, r.heading - 180⟩
    norm_num at hc
    exact hc

/-- C2 counterexample: for the ray at `(99, 0)` heading 0 and the vertical
mirror, the reflection step (set the heading to the reflected angle, then
`extend_ray`) leaves the position at `(99, 0)`; it does not leave the ray
1000 units away along the new heading, contradicting the claim. -/
theorem C2_counterexample :
    (extend_ray ⟨((99 : ℝ), (0 : ℝ)), reflect_ray 0 vmirror.1 vmirror.2⟩).pos =
        ((99 : ℝ), (0 : ℝ)) ∧
      (extend_ray ⟨((99 : ℝ), (0 : ℝ)), reflect_ray 0 vmirror.1 vmirror.2⟩).pos ≠
        (fwd ⟨((99 : ℝ), (0 : ℝ)), reflect_ray 0 vmirror.1 vmirror.2⟩ 1000).pos := by
  have hrefl : reflect_ray 0 vmirror.1 vmirror.2 = 180 := by
    rw [reflect_vmirror]; norm_num
  rw [extend_ray_eq_id]
  refine ⟨rfl, ?_⟩
  rw [hrefl]
  unfold fwd
  have hcos : Real.cos ((180 : ℝ) * Real.pi / 180) = -1 := by
    have : (180 : ℝ) * Real.pi / 180 = Real.pi := by ring
    rw [this, Real.cos_pi]
  intro h
  rw [Prod.ext_iff] at h
  have h1 := h.1
  simp only [hcos] at h1
  norm_num at h1

/-- C2 amended: after setting the ray's heading to the reflected angle, the
escape advance (`extend_ray`) moves the ray backward and then forward along
the *new* heading by the same distance (1020 units), so the ray's position
after the reflection step equals its pre-reflection position; the step does
not displace the ray at all. -/
theorem C2_amended_reflection_step_keeps_position (r : Ray) (m : Mirror) :
    extend_ray ⟨r.pos, reflect_ray r.heading m.1 m.2⟩ =
      ⟨r.pos, reflect_ray r.heading m.1 m.2⟩ :=
  extend_ray_eq_id _

/-! ### Claim C1: motion of a collision-free ray -/

/-- The collision test fires for no mirror during one tick of `r` (the ray
advances one unit between consecutive tests, exactly as in the inner loop). -/
def tickFree (margin : ℝ) (r : Ray) : List Mirror → Prop
  | [] => True
  | m :: ms => ¬is_colliding margin r m ∧ tickFree margin (fwd r 1) ms

/-- The collision test fires at no point during `n` ticks of ray `r`. -/
def runFree (margin : ℝ) (mirrors : List Mirror) (r : Ray) : ℕ → Prop
  | 0 => True
  | n + 1 => runFree margin mirrors r n ∧
      tickFree margin (runRay margin mirrors n r) mirrors

lemma stepRayMirror_of_not_colliding (margin : ℝ) (r : Ray) (m : Mirror)
    (h : ¬is_colliding margin r m) : stepRayMirror margin r m = fwd r 1 := by
  unfold stepRayMirror
  rw [if_neg h]

lemma stepRay_of_tickFree (margin : ℝ) :
    ∀ (ms : List Mirror) (r : Ray), tickFree margin r ms →
      stepRay margin ms r = fwd r (ms.length : ℝ)
  | [], r, _ => by simp [stepRay, fwd_zero]
  | m :: ms, r, h => by
    obtain ⟨hm, hrest⟩ := h
    have : stepRay margin (m :: ms) r = stepRay margin ms (stepRayMirror margin r m) := rfl
    rw [this, stepRayMirror_of_not_colliding margin r m hm,
      stepRay_of_tickFree margin ms (fwd r 1) hrest, fwd_fwd]
    have : (1 : ℝ) + (ms.length : ℝ) = ((m :: ms).length : ℝ) := by
      simp [add_comm]
    rw [this]

/-- C1 counterexample: the claim fails with an empty mirror list, where the
collision test (vacuously) never fires: after one tick the ray at the origin
heading 0 has not moved at all, while the claim predicts it advanced one unit
along its heading. -/
theorem C1_counterexample :
    runFree (Real.sqrt 2) [] ray0 1 ∧
      (runRay (Real.sqrt 2) [] 1 ray0).pos ≠ (fwd ray0 1).pos := by
  refine ⟨⟨trivial, trivial⟩, ?_⟩
  have h1 : runRay (Real.sqrt 2) [] 1 ray0 = ray0 := rfl
  rw [h1]
  unfold fwd ray0
  have hcos : Real.cos ((0 : ℝ) * Real.pi / 180) = 1 := by
    norm_num
  intro h
  rw [Prod.ext_iff] at h
  have h1 := h.1
  simp only [hcos] at h1
  norm_num at h1

/-- C1 amended: a ray for which the collision test never fires advances one
unit per *configured mirror* per tick (the `forward(1)` sits inside the
mirror loop), so after `n` ticks its position is its start plus
`n * mirrors.length` units along the unit vector of its unchanged heading. -/
theorem C1_amended_per_mirror_advance (margin : ℝ) (mirrors : List Mirror)
    (r : Ray) (n : ℕ) (h : runFree margin mirrors r n) :
    runRay margin mirrors n r = fwd r ((n : ℝ) * (mirrors.length : ℝ)) := by
  induction n with
  | zero => simp [runRay, fwd_zero]
  | succ k ih =>
    obtain ⟨hprev, htick⟩ := h
    have hstep : runRay margin mirrors (k + 1) r =
        stepRay margin mirrors (runRay margin mirrors k r) := rfl
    rw [hstep, stepRay_of_tickFree margin mirrors _ htick, ih hprev, fwd_fwd]
    have : (k : ℝ) * (mirrors.length : ℝ) + (mirrors.length : ℝ) =
        ((k + 1 : ℕ) : ℝ) * (mirrors.length : ℝ) := by
      push_cast; ring
    rw [this]

/-- Witness for C1 amended: one mirror whose containment window is empty, one
tick; the ray advances exactly `1 * 1` unit along its heading. -/
theorem C1_amended_witness :
    runFree (Real.sqrt 2) [(((0 : ℝ), (10 : ℝ)), ((0 : ℝ), (-10 : ℝ)))] ray0 1 ∧
      runRay (Real.sqrt 2) [(((0 : ℝ), (10 : ℝ)), ((0 : ℝ), (-10 : ℝ)))] 1 ray0 =
        fwd ray0 ((1 : ℝ) * (1 : ℝ)) := by
  have hfree : runFree (Real.sqrt 2) [(((0 : ℝ), (10 : ℝ)), ((0 : ℝ), (-10 : ℝ)))] ray0 1 := by
    refine ⟨trivial, ?_, trivial⟩
    have h0 : runRay (Real.sqrt 2) [(((0 : ℝ), (10 : ℝ)), ((0 : ℝ), (-10 : ℝ)))] 0 ray0 = ray0 :=
      rfl
    rw [h0]
    unfold is_colliding ray0
    norm_num
  refine ⟨hfree, ?_⟩
  have h := C1_amended_per_mirror_advance (Real.sqrt 2)
    [(((0 : ℝ), (10 : ℝ)), ((0 : ℝ), (-10 : ℝ)))] ray0 1 hfree
  simpa using h

/-! ### Claim C10: rays never affect one another -/

/-- The driver is a per-ray map: every ray's state after `n` ticks is a
function of its own initial state and the static mirror list alone. -/
lemma run_simulation_eq_map (mirrors : List Mirror) (rays : List Ray) :
    ∀ n : ℕ, run_simulation mirrors rays n =
      rays.map (runRay (Real.sqrt 2) mirrors n)
  | 0 => by
    simp [run_simulation, runRay]
  | n + 1 => by
    have h : run_simulation mirrors rays (n + 1) =
        simulate_rays (run_simulation mirrors rays n) mirrors := rfl
    rw [h, run_simulation_eq_map mirrors rays n]
    unfold simulate_rays
    rw [List.map_map]
    rfl

lemma map_eraseIdx {α β : Type} (f : α → β) :
    ∀ (l : List α) (j : ℕ), (l.eraseIdx j).map f = (l.map f).eraseIdx j
  | [], _ => rfl
  | _ :: _, 0 => rfl
  | a :: l, j + 1 => by
    simp only [List.eraseIdx, List.map_cons]
    rw [map_eraseIdx f l j]

/-- C10: removing any ray from the initial population does not change the
trajectory of any other ray: for every mirror set, initial ray list, tick
count and index, running the driver on the list with the ray at that index
removed yields exactly the original per-ray results with that entry removed.
(Since this holds for every `n`, the whole per-tick position/heading sequence
of every surviving ray is unchanged.) -/
theorem C10_ray_non_interaction (mirrors : List Mirror) (rays : List Ray)
    (n : ℕ) (j : ℕ) :
    run_simulation mirrors (rays.eraseIdx j) n =
      (run_simulation mirrors rays n).eraseIdx j := by
  rw [run_simulation_eq_map, run_simulation_eq_map, map_eraseIdx]

/-! ### Claims C5, C6, C8: the distance computation -/

lemma den_inner_pos (ls le : ℝ × ℝ) (h : ls ≠ le) :
    0 < (le.2 - ls.2) ^ 2 + (le.1 - ls.1) ^ 2 := by
  have hor : ls.1 ≠ le.1 ∨ ls.2 ≠ le.2 := by
    rw [Ne, Prod.ext_iff, not_and_or] at h
    exact h
  rcases hor with h1 | h2
  · have h1' : le.1 - ls.1 ≠ 0 := sub_ne_zero.mpr (Ne.symm h1)
    nlinarith [sq_nonneg (le.2 - ls.2), sq_pos_of_ne_zero h1']
  · have h2' : le.2 - ls.2 ≠ 0 := sub_ne_zero.mpr (Ne.symm h2)
    nlinarith [sq_nonneg (le.1 - ls.1), sq_pos_of_ne_zero h2']

lemma distDen_pos (ls le : ℝ × ℝ) (h : ls ≠ le) : 0 < distDen ls le := by
  unfold distDen
  exact Real.sqrt_pos.mpr (den_inner_pos ls le h)

/-- C6: for distinct line endpoints the divisor
`sqrt((y2 - y1)^2 + (x2 - x1)^2)` is strictly positive, so the
division-by-zero branch of `distance` is unreachable and the function totally
returns the quotient. -/
theorem C6_distance_total_nondegenerate (point ls le : ℝ × ℝ) (h : ls ≠ le) :
    0 < distDen ls le ∧ distanceE point ls le = some (distance point ls le) := by
  have hpos := distDen_pos ls le h
  refine ⟨hpos, ?_⟩
  unfold distanceE
  rw [if_neg (ne_of_gt hpos)]

/-- Witness for C6 at the endpoints `(0,0)` and `(3,4)`. -/
theorem C6_witness :
    ((0 : ℝ), (0 : ℝ)) ≠ ((3 : ℝ), (4 : ℝ)) ∧
      (0 < distDen ((0 : ℝ), (0 : ℝ)) ((3 : ℝ), (4 : ℝ)) ∧
        distanceE ((1 : ℝ), (1 : ℝ)) ((0 : ℝ), (0 : ℝ)) ((3 : ℝ), (4 : ℝ)) =
          some (distance ((1 : ℝ), (1 : ℝ)) ((0 : ℝ), (0 : ℝ)) ((3 : ℝ), (4 : ℝ)))) := by
  have hne : ((0 : ℝ), (0 : ℝ)) ≠ ((3 : ℝ), (4 : ℝ)) := by
    rw [Ne, Prod.ext_iff]
    norm_num
  exact ⟨hne, C6_distance_total_nondegenerate _ _ _ hne⟩

/-- C5 (code evaluated at the failing input): no validation of mirrors exists
anywhere in the setup path — `setup_simulation` happily builds the scene for
the degenerate mirror `((1,1),(1,1))` — and for that mirror the divisor of
`distance` is exactly zero, so the very first collision test of the first
tick divides by zero (Python: `ZeroDivisionError` during stepping, not a
descriptive construction-time error). -/
theorem C5_degenerate_mirror_division_by_zero :
    setup_simulation [(((1 : ℝ), (1 : ℝ)), ((1 : ℝ), (1 : ℝ)))] [((0 : ℝ), (0 : ℝ))] [0] =
        [ray0] ∧
      distDen ((1 : ℝ), (1 : ℝ)) ((1 : ℝ), (1 : ℝ)) = 0 ∧
      ∀ p : ℝ × ℝ, distanceE p ((1 : ℝ), (1 : ℝ)) ((1 : ℝ), (1 : ℝ)) = none := by
  have hden : distDen ((1 : ℝ), (1 : ℝ)) ((1 : ℝ), (1 : ℝ)) = 0 := by
    unfold distDen
    norm_num
  refine ⟨rfl, hden, fun p => ?_⟩
  unfold distanceE
  rw [if_pos hden]

/-- Points of the infinite line through `ls` and `le`, parametrised as
`ls + t * (le - ls)`. -/
def onLine (ls le q : ℝ × ℝ) : Prop :=
  ∃ t : ℝ, q = (ls.1 + t * (le.1 - ls.1), ls.2 + t * (le.2 - ls.2))

/-- C8: for distinct endpoints, `distance` returns 0 at every point lying
exactly on the infinite line through them. -/
theorem C8_distance_zero_on_line (p ls le : ℝ × ℝ) (_hne : ls ≠ le)
    (hp : onLine ls le p) : distance p ls le = 0 := by
  obtain ⟨t, ht⟩ := hp
  subst ht
  unfold distance distNum
  have hnum : (le.2 - ls.2) * (ls.1 + t * (le.1 - ls.1)) -
      (le.1 - ls.1) * (ls.2 + t * (le.2 - ls.2)) +
      le.1 * ls.2 - le.2 * ls.1 = 0 := by ring
  rw [hnum, abs_zero, zero_div]

/-- Witness for C8: the point `(2, 2)` on the line through `(0,0)` and
`(1,1)`. -/
theorem C8_witness :
    ((0 : ℝ), (0 : ℝ)) ≠ ((1 : ℝ), (1 : ℝ)) ∧
      onLine ((0 : ℝ), (0 : ℝ)) ((1 : ℝ), (1 : ℝ)) ((2 : ℝ), (2 : ℝ)) ∧
      distance ((2 : ℝ), (2 : ℝ)) ((0 : ℝ), (0 : ℝ)) ((1 : ℝ), (1 : ℝ)) = 0 := by
  have hne : ((0 : ℝ), (0 : ℝ)) ≠ ((1 : ℝ), (1 : ℝ)) := by
    rw [Ne, Prod.ext_iff]
    norm_num
  have hon : onLine ((0 : ℝ), (0 : ℝ)) ((1 : ℝ), (1 : ℝ)) ((2 : ℝ), (2 : ℝ)) := by
    refine ⟨2, ?_⟩
    norm_num
  exact ⟨hne, hon, C8_distance_zero_on_line _ _ _ hne hon⟩

/-! ### Claim C4: the collision test -/

/-- Euclidean distance between two points of the plane. -/
noncomputable def linePointDist (p q : ℝ × ℝ) : ℝ :=
  Real.sqrt ((p.1 - q.1) ^ 2 + (p.2 - q.2) ^ 2)

/-- The set of distances from `p` to the points of the infinite line through
`ls` and `le`; its least element is the perpendicular distance. -/
def perpDistSet (p ls le : ℝ × ℝ) : Set ℝ :=
  {d | ∃ q : ℝ × ℝ, onLine ls le q ∧ d = linePointDist p q}

lemma distance_nonneg (p ls le : ℝ × ℝ) : 0 ≤ distance p ls le := by
  unfold distance distNum distDen
  positivity

lemma distance_sq (p ls le : ℝ × ℝ) (h : ls ≠ le) :
    distance p ls le ^ 2 =
      ((le.2 - ls.2) * p.1 - (le.1 - ls.1) * p.2 + le.1 * ls.2 - le.2 * ls.1) ^ 2 /
        ((le.2 - ls.2) ^ 2 + (le.1 - ls.1) ^ 2) := by
  unfold distance distNum distDen
  rw [div_pow, sq_abs, Real.sq_sqrt (le_of_lt (den_inner_pos ls le h))]

/-- `distance` really computes the perpendicular distance from the point to
the infinite line: it is the least distance from `p` to any point of the
line. -/
lemma distance_isLeast (p ls le : ℝ × ℝ) (h : ls ≠ le) :
    IsLeast (perpDistSet p ls le) (distance p ls le) := by
  have hd := den_inner_pos ls le h
  constructor
  · -- the foot of the perpendicular realises the distance
    refine ⟨(ls.1 + ((le.1 - ls.1) * (p.1 - ls.1) + (le.2 - ls.2) * (p.2 - ls.2)) /
        ((le.2 - ls.2) ^ 2 + (le.1 - ls.1) ^ 2) * (le.1 - ls.1),
      ls.2 + ((le.1 - ls.1) * (p.1 - ls.1) + (le.2 - ls.2) * (p.2 - ls.2)) /
        ((le.2 - ls.2) ^ 2 + (le.1 - ls.1) ^ 2) * (le.2 - ls.2)),
      ⟨_, rfl⟩, ?_⟩
    have hE : (p.1 - (ls.1 + ((le.1 - ls.1) * (p.1 - ls.1) + (le.2 - ls.2) * (p.2 - ls.2)) /
          ((le.2 - ls.2) ^ 2 + (le.1 - ls.1) ^ 2) * (le.1 - ls.1))) ^ 2 +
        (p.2 - (ls.2 + ((le.1 - ls.1) * (p.1 - ls.1) + (le.2 - ls.2) * (p.2 - ls.2)) /
          ((le.2 - ls.2) ^ 2 + (le.1 - ls.1) ^ 2) * (le.2 - ls.2))) ^ 2 =
        distance p ls le ^ 2 := by
      rw [distance_sq p ls le h]
      field_simp
      ring
    unfold linePointDist
    rw [hE, Real.sqrt_sq (distance_nonneg p ls le)]
  · rintro d ⟨q, ⟨t, hq⟩, rfl⟩
    subst hq
    unfold linePointDist
    dsimp only
    apply Real.le_sqrt_of_sq_le
    rw [distance_sq p ls le h, div_le_iff₀ hd]
    have key : ((le.2 - ls.2) * p.1 - (le.1 - ls.1) * p.2 + le.1 * ls.2 - le.2 * ls.1) ^ 2 +
        ((le.1 - ls.1) * (p.1 - ls.1) + (le.2 - ls.2) * (p.2 - ls.2) -
          t * ((le.2 - ls.2) ^ 2 + (le.1 - ls.1) ^ 2)) ^ 2 =
        ((p.1 - (ls.1 + t * (le.1 - ls.1))) ^ 2 + (p.2 - (ls.2 + t * (le.2 - ls.2))) ^ 2) *
          ((le.2 - ls.2) ^ 2 + (le.1 - ls.1) ^ 2) := by
      ring
    linarith [key, sq_nonneg ((le.1 - ls.1) * (p.1 - ls.1) + (le.2 - ls.2) * (p.2 - ls.2) -
      t * ((le.2 - ls.2) ^ 2 + (le.1 - ls.1) ^ 2))]

/-- C4: for a non-degenerate mirror, the collision test is true iff the
perpendicular distance from the ray's position to the mirror's infinite line
(the least distance to any point of the line) is at most the margin AND
`(sy < ray.y < ey) OR (ex < ray.x < sx)`. -/
theorem C4_collision_iff_perp_distance_and_containment (margin : ℝ) (r : Ray)
    (m : Mirror) (h : m.1 ≠ m.2) :
    is_colliding margin r m ↔
      ((∃ d, IsLeast (perpDistSet r.pos m.1 m.2) d ∧ d ≤ margin) ∧
        ((m.1.2 < r.pos.2 ∧ r.pos.2 < m.2.2) ∨ (m.2.1 < r.pos.1 ∧ r.pos.1 < m.1.1))) := by
  have hL := distance_isLeast r.pos m.1 m.2 h
  unfold is_colliding
  constructor
  · rintro ⟨h1, h2⟩
    exact ⟨⟨distance r.pos m.1 m.2, hL, h1⟩, h2⟩
  · rintro ⟨⟨d, hld, hdm⟩, h2⟩
    have heq := hL.unique hld
    rw [heq]
    exact ⟨hdm, h2⟩

/-- Witness for C4 at the vertical scenario mirror and the ray at `(99,0)`. -/
theorem C4_witness :
    vmirror.1 ≠ vmirror.2 ∧
      (is_colliding (Real.sqrt 2) ⟨((99 : ℝ), (0 : ℝ)), 0⟩ vmirror ↔
        ((∃ d, IsLeast (perpDistSet ((99 : ℝ), (0 : ℝ)) vmirror.1 vmirror.2) d ∧
            d ≤ Real.sqrt 2) ∧
          ((vmirror.1.2 < (0 : ℝ) ∧ (0 : ℝ) < vmirror.2.2) ∨
            (vmirror.2.1 < (99 : ℝ) ∧ (99 : ℝ) < vmirror.1.1)))) := by
  have hne : vmirror.1 ≠ vmirror.2 := by
    unfold vmirror
    rw [Ne, Prod.ext_iff]
    norm_num
  exact ⟨hne, C4_collision_iff_perp_distance_and_containment (Real.sqrt 2)
    ⟨((99 : ℝ), (0 : ℝ)), 0⟩ vmirror hne⟩

/-! ### Claim C7: endpoint-swap invariance of the reflection angle -/

/-- C7: swapping a non-degenerate mirror's endpoints changes the `atan2`
mirror angle by 180 degrees, which after doubling contributes a full turn:
the two reflected headings differ by an integer multiple of 360 degrees. -/
theorem C7_reflect_swap_mod_360 (h : ℝ) (A B : ℝ × ℝ) (hne : A ≠ B) :
    ∃ k : ℤ, reflect_ray h A B - reflect_ray h B A = 360 * (k : ℝ) := by
  have hw : (⟨B.1 - A.1, B.2 - A.2⟩ : ℂ) ≠ 0 := by
    intro hw0
    rw [Complex.ext_iff] at hw0
    simp only [Complex.zero_re, Complex.zero_im] at hw0
    apply hne
    rw [Prod.ext_iff]
    constructor <;> [linarith [hw0.1]; linarith [hw0.2]]
  have hneg : (⟨A.1 - B.1, A.2 - B.2⟩ : ℂ) = -(⟨B.1 - A.1, B.2 - A.2⟩ : ℂ) := by
    apply Complex.ext <;> simp
  have harg := Complex.arg_neg_coe_angle hw
  rw [← Real.Angle.coe_add] at harg
  obtain ⟨k, hk⟩ := Real.Angle.angle_eq_iff_two_pi_dvd_sub.mp harg
  refine ⟨-1 - 2 * k, ?_⟩
  unfold reflect_ray
  rw [hneg]
  have hk' : Complex.arg (-(⟨B.1 - A.1, B.2 - A.2⟩ : ℂ)) =
      Complex.arg ⟨B.1 - A.1, B.2 - A.2⟩ + Real.pi + 2 * Real.pi * (k : ℝ) := by
    linarith [hk]
  rw [hk']
  have hpi := Real.pi_ne_zero
  push_cast
  field_simp
  ring

/-- Witness for C7 at heading 0 and the segment from `(0,0)` to `(1,0)`. -/
theorem C7_witness :
    (((0 : ℝ), (0 : ℝ)) : ℝ × ℝ) ≠ ((1 : ℝ), (0 : ℝ)) ∧
      ∃ k : ℤ, reflect_ray 0 ((0 : ℝ), (0 : ℝ)) ((1 : ℝ), (0 : ℝ)) -
        reflect_ray 0 ((1 : ℝ), (0 : ℝ)) ((0 : ℝ), (0 : ℝ)) = 360 * (k : ℝ) := by
  have hne : (((0 : ℝ), (0 : ℝ)) : ℝ × ℝ) ≠ ((1 : ℝ), (0 : ℝ)) := by
    rw [Ne, Prod.ext_iff]
    norm_num
  exact ⟨hne, C7_reflect_swap_mod_360 0 _ _ hne⟩

/-! ### Claim C9: the vertical-mirror scenario -/

lemma one_le_sqrt_two : (1 : ℝ) ≤ Real.sqrt 2 := by
  rw [show (1 : ℝ) = Real.sqrt 1 from Real.sqrt_one.symm]
  exact Real.sqrt_le_sqrt (by norm_num)

lemma sqrt_two_lt_two : Real.sqrt 2 < 2 :=
  (Real.sqrt_lt' (by norm_num)).mpr (by norm_num)

/-- The distance of any point to the vertical mirror's line is `|x - 100|`. -/
lemma dist_vmirror (x y : ℝ) :
    distance (x, y) vmirror.1 vmirror.2 = |x - 100| := by
  unfold distance distNum distDen vmirror
  dsimp only
  have h1 : ((100 : ℝ) - -100) * x - ((100 : ℝ) - 100) * y + 100 * -100 - 100 * 100 =
      200 * (x - 100) := by ring
  have h2 : ((100 : ℝ) - -100) ^ 2 + ((100 : ℝ) - 100) ^ 2 = 200 ^ 2 := by norm_num
  rw [h1, h2, Real.sqrt_sq (by norm_num : (0 : ℝ) ≤ 200), abs_mul,
    abs_of_pos (by norm_num : (0 : ℝ) < 200), mul_comm, mul_div_assoc,
    div_self (by norm_num : (200 : ℝ) ≠ 0), mul_one]

lemma vmirror_not_colliding (k : ℕ) (hk : k ≤ 98) :
    ¬is_colliding (Real.sqrt 2) ⟨((k : ℝ), 0), 0⟩ vmirror := by
  intro hcol
  unfold is_colliding at hcol
  dsimp only at hcol
  obtain ⟨hd, _⟩ := hcol
  rw [dist_vmirror] at hd
  have hk' : (k : ℝ) ≤ 98 := by exact_mod_cast hk
  have habs : |(k : ℝ) - 100| = 100 - (k : ℝ) := by
    rw [abs_of_nonpos (by linarith)]
    ring
  rw [habs] at hd
  have := sqrt_two_lt_two
  linarith

lemma fwd_heading_zero (x y d : ℝ) : fwd ⟨(x, y), 0⟩ d = ⟨(x + d, y), 0⟩ := by
  unfold fwd
  ext <;> simp

/-- Straight-line approach: for the first 99 ticks the ray advances one unit
along +x per tick, never colliding. -/
lemma vmirror_trace : ∀ k : ℕ, k ≤ 99 →
    runRay (Real.sqrt 2) [vmirror] k ray0 = ⟨((k : ℝ), 0), 0⟩ := by
  intro k
  induction k with
  | zero =>
    intro _
    simp [runRay, ray0]
  | succ n ih =>
    intro hk
    have hstep : runRay (Real.sqrt 2) [vmirror] (n + 1) ray0 =
        stepRay (Real.sqrt 2) [vmirror] (runRay (Real.sqrt 2) [vmirror] n ray0) := rfl
    rw [hstep, ih (by omega)]
    have hsingle : stepRay (Real.sqrt 2) [vmirror] ⟨((n : ℝ), 0), 0⟩ =
        stepRayMirror (Real.sqrt 2) ⟨((n : ℝ), 0), 0⟩ vmirror := rfl
    rw [hsingle, stepRayMirror_of_not_colliding _ _ _ (vmirror_not_colliding n (by omega)),
      fwd_heading_zero]
    have hcast : (n : ℝ) + 1 = ((n + 1 : ℕ) : ℝ) := by push_cast; ring
    rw [hcast]

/-- The collision test fires at position `(99, 0)`. -/
lemma vmirror_collides_99 :
    is_colliding (Real.sqrt 2) ⟨((99 : ℝ), 0), 0⟩ vmirror := by
  unfold is_colliding
  dsimp only
  constructor
  · rw [dist_vmirror]
    have habs : |(99 : ℝ) - 100| = 1 := by
      rw [abs_of_nonpos (by norm_num)]
      norm_num
    rw [habs]
    exact one_le_sqrt_two
  · left
    unfold vmirror
    norm_num

/-- C9: with the single vertical mirror `((100,-100),(100,100))` and one ray
from `(0,0)` heading 0, there is a tick (the 100th, at position `(99, 0)`)
at which the collision test fires with the containment test satisfied, the
reflected heading equals `2 * 90 - 0`, and after that tick the ray's heading
is 180 degrees — its direction of travel is reversed. -/
theorem C9_vertical_mirror_scenario :
    ∃ n : ℕ,
      is_colliding (Real.sqrt 2) (runRay (Real.sqrt 2) [vmirror] n ray0) vmirror ∧
        reflect_ray (runRay (Real.sqrt 2) [vmirror] n ray0).heading vmirror.1 vmirror.2 =
          2 * 90 - 0 ∧
        (runRay (Real.sqrt 2) [vmirror] (n + 1) ray0).heading = 180 := by
  have h99 : runRay (Real.sqrt 2) [vmirror] 99 ray0 = ⟨((99 : ℝ), 0), 0⟩ := by
    have h := vmirror_trace 99 (le_refl 99)
    push_cast at h
    exact h
  refine ⟨99, ?_, ?_, ?_⟩
  · rw [h99]
    exact vmirror_collides_99
  · rw [h99]
    dsimp only
    rw [reflect_vmirror]
  · have hstep : runRay (Real.sqrt 2) [vmirror] (99 + 1) ray0 =
        stepRayMirror (Real.sqrt 2) (runRay (Real.sqrt 2) [vmirror] 99 ray0) vmirror := rfl
    rw [hstep, h99]
    unfold stepRayMirror
    dsimp only
    rw [if_pos vmirror_collides_99, extend_ray_eq_id, fwd_heading]
    dsimp only
    rw [reflect_vmirror]
    norm_num
